import Mathlib

/-!
Verification of the smart-reporter core (history store, signal engine,
run aggregator) against a shallow embedding of the TypeScript source.
Durations and scores are embedded as rationals; the one place where
JavaScript number semantics matters beyond the rationals is division by
zero in the performance-trend computation, which is embedded explicitly
(JsDivResult below, with the IEEE Infinity and NaN outcomes of a / 0 and
their comparison behaviour). File-system access is embedded as an explicit
FileState value, and JSON.parse (a platform builtin, not repository code)
as an abstract Option-returning parse function.
-/

/-- One past outcome for a test: the TestHistoryEntry interface of the
source (passed, duration, timestamp). -/
structure TestHistoryEntry where
  passed : Bool
  duration : ℚ
  timestamp : String
deriving DecidableEq

/-- The TestHistory mapping from test id to ordered entries, oldest first.
A key that is absent in the JavaScript object is embedded as the empty
list, which is how the source reads absent keys (history[testId] or []). -/
abbrev TestHistory := String → List TestHistoryEntry

/-- The empty mapping (the initial value of this.history). -/
def emptyHistory : TestHistory := fun _ => []

/-- The five status strings of the reporter API used by the source. -/
inductive TestStatus where
  | passed
  | failed
  | skipped
  | timedOut
  | interrupted
deriving DecidableEq

/-- One test-completion event as the source consumes it: the fields of
(test, result) that onTestEnd reads. file is the path already made
relative to the project root (path.relative is a platform call). -/
structure TestEvent where
  file : String
  title : String
  status : TestStatus
  duration : ℚ
  retry : ℕ
  errorMsg : Option String
  timestamp : String

/-- The TestResultData record built by onTestEnd. -/
structure TestResultData where
  testId : String
  title : String
  file : String
  status : TestStatus
  duration : ℚ
  retry : ℕ
  error : Option String
  flakinessScore : Option ℚ
  flakinessIndicator : Option String
  performanceTrend : Option String
  averageDuration : Option ℚ
  aiSuggestion : Option String

/-- The derived signal fields attached to a result. -/
structure Signal where
  flakinessScore : Option ℚ
  flakinessIndicator : String
  performanceTrend : String
  averageDuration : Option ℚ

/-- Lines 99 and 100 of the source: failures divided by the number of
entries, where failures counts the entries whose passed flag is false. -/
def flakinessScore (entries : List TestHistoryEntry) : ℚ :=
  (((entries.filter fun e => !e.passed).length : ℕ) : ℚ) / ((entries.length : ℕ) : ℚ)

/-- getFlakinessIndicator of the source: the if chain on the score. -/
def getFlakinessIndicator (score : ℚ) : String :=
  if score < 1/10 then "🟢 Stable"
  else if score < 3/10 then "🟡 Unstable"
  else "🔴 Flaky"

/-- Lines 105 to 107 of the source: reduce with a running sum, divided by
the number of entries. -/
def averageDuration (entries : List TestHistoryEntry) : ℚ :=
  (entries.foldl (fun sum e => sum + e.duration) 0) / ((entries.length : ℕ) : ℚ)

/-- Math.round of JavaScript on a finite value: floor of the value plus
one half. -/
def jsRound (q : ℚ) : ℤ := ⌊q + 1/2⌋

/-- Outcome of a JavaScript division of finite numbers: a finite value, or
the Infinity and NaN outcomes of a division by zero. -/
inductive JsDivResult where
  | fin (q : ℚ)
  | posInf
  | negInf
  | nan
deriving DecidableEq

/-- JavaScript division a / b on finite a and b: exact when b is nonzero,
signed Infinity or NaN when b is zero. -/
def jsDiv (a b : ℚ) : JsDivResult :=
  if b ≠ 0 then .fin (a / b)
  else if 0 < a then .posInf
  else if a < 0 then .negInf
  else .nan

/-- JavaScript comparison d > t for a division outcome d and a finite t:
NaN compares false, positive Infinity true, negative Infinity false. -/
def JsDivResult.gtQ : JsDivResult → ℚ → Bool
  | .fin q, t => decide (t < q)
  | .posInf, _ => true
  | .negInf, _ => false
  | .nan, _ => false

/-- JavaScript comparison d < -t for a division outcome d and a finite t. -/
def JsDivResult.ltNegQ : JsDivResult → ℚ → Bool
  | .fin q, t => decide (q < -t)
  | .posInf, _ => false
  | .negInf, _ => true
  | .nan, _ => false

/-- The string Math.round(d * 100) interpolates into the slower branch. -/
def JsDivResult.roundTimes100 : JsDivResult → String
  | .fin q => toString (jsRound (q * 100))
  | .posInf => "Infinity"
  | .negInf => "-Infinity"
  | .nan => "NaN"

/-- The string Math.round(Math.abs(d) * 100) interpolates into the faster
branch. -/
def JsDivResult.absRoundTimes100 : JsDivResult → String
  | .fin q => toString (jsRound (|q| * 100))
  | .posInf => "Infinity"
  | .negInf => "Infinity"
  | .nan => "NaN"

/-- getPerformanceTrend of the source: diff is the unguarded quotient
(current - average) / average; the threshold comparisons and the three
returned strings follow the source branch for branch. -/
def getPerformanceTrend (current average threshold : ℚ) : String :=
  let diff := jsDiv (current - average) average
  if diff.gtQ threshold then "↑ " ++ diff.roundTimes100 ++ "% slower"
  else if diff.ltNegQ threshold then "↓ " ++ diff.absRoundTimes100 ++ "% faster"
  else "→ Stable"

/-- The signal computation of onTestEnd, lines 96 to 116 of the source:
score, indicator, average and trend when prior entries exist, the New and
Baseline markers otherwise. -/
def computeSignal (threshold : ℚ) (historyEntries : List TestHistoryEntry)
    (currentDuration : ℚ) : Signal :=
  if 0 < historyEntries.length then
    { flakinessScore := some (flakinessScore historyEntries),
      flakinessIndicator := getFlakinessIndicator (flakinessScore historyEntries),
      performanceTrend :=
        getPerformanceTrend currentDuration (averageDuration historyEntries) threshold,
      averageDuration := some (averageDuration historyEntries) }
  else
    { flakinessScore := none,
      flakinessIndicator := "⚪ New",
      performanceTrend := "→ Baseline",
      averageDuration := none }

/-- The test identity key of getTestId: the relative file path and the
title joined with a double colon. -/
def getTestId (file title : String) : String := file ++ "::" ++ title

/-- The identity key the reporter derives for an event: only the file and
the title fields are read. -/
def eventTestId (ev : TestEvent) : String := getTestId ev.file ev.title

/-- The TestResultData that onTestEnd builds for one completion event,
reading the prior entries of the test from the given history snapshot.
The error field is set only for a failed or timed-out status, from the
message of the first error descriptor when one exists. -/
def mkTestResult (threshold : ℚ) (hist : TestHistory) (ev : TestEvent) :
    TestResultData :=
  let sig := computeSignal threshold (hist (eventTestId ev)) ev.duration
  { testId := eventTestId ev
    title := ev.title
    file := ev.file
    status := ev.status
    duration := ev.duration
    retry := ev.retry
    error :=
      if ev.status = TestStatus.failed ∨ ev.status = TestStatus.timedOut then
        ev.errorMsg
      else none
    flakinessScore := sig.flakinessScore
    flakinessIndicator := some sig.flakinessIndicator
    performanceTrend := some sig.performanceTrend
    averageDuration := sig.averageDuration
    aiSuggestion := none }

/-- The in-memory state of the reporter between run begin and run end:
the history snapshot loaded at run start and the collected results. -/
structure ReporterState where
  history : TestHistory
  results : List TestResultData

/-- One onTestEnd call: push the built result, touch nothing else. -/
def onTestEndStep (threshold : ℚ) (st : ReporterState) (ev : TestEvent) :
    ReporterState :=
  { st with results := st.results ++ [mkTestResult threshold st.history ev] }

/-- All onTestEnd calls of a run, in event order. -/
def processRun (threshold : ℚ) (st : ReporterState) (evs : List TestEvent) :
    ReporterState :=
  evs.foldl (onTestEndStep threshold) st

/-- JavaScript arr.slice(-n) for a natural n: the whole array when n is
zero (minus zero is zero), otherwise the last n elements. -/
def sliceLast (l : List TestHistoryEntry) (n : ℕ) : List TestHistoryEntry :=
  if n = 0 then l else l.drop (l.length - n)

/-- One iteration of the updateHistory loop on one sequence of entries:
push the new entry, then truncate with slice(-maxHistoryRuns) when the
length exceeds maxHistoryRuns. -/
def appendEntry (maxRuns : ℕ) (h : List TestHistoryEntry)
    (e : TestHistoryEntry) : List TestHistoryEntry :=
  let l := h ++ [e]
  if maxRuns < l.length then sliceLast l maxRuns else l

/-- The HistoryEntry persisted for one result: passed is the comparison of
the status with the passed status, duration and the run-end timestamp. -/
def mkHistoryEntry (ts : String) (r : TestResultData) : TestHistoryEntry :=
  { passed := decide (r.status = TestStatus.passed)
    duration := r.duration
    timestamp := ts }

/-- One iteration of the updateHistory loop on the mapping: update the
sequence at the testId of the result, leave every other key alone. -/
def applyResult (maxRuns : ℕ) (ts : String) (h : TestHistory)
    (r : TestResultData) : TestHistory :=
  fun id =>
    if id = r.testId then appendEntry maxRuns (h r.testId) (mkHistoryEntry ts r)
    else h id

/-- updateHistory of the source: fold the loop over the collected results
in order, starting from the loaded mapping. -/
def updateHistory (maxRuns : ℕ) (ts : String) (hist : TestHistory)
    (results : List TestResultData) : TestHistory :=
  results.foldl (applyResult maxRuns ts) hist

/-- One iteration of the addAiSuggestions loop: a failed or timed-out
result gets the provider suggestion when the provider succeeds and is left
unchanged when the provider fails (the catch branch logs and moves on);
any other result is left unchanged (the loop only visits failures). -/
def enrichOne (provider : TestResultData → Except String String)
    (r : TestResultData) : TestResultData :=
  if r.status = TestStatus.failed ∨ r.status = TestStatus.timedOut then
    match provider r with
    | .ok s => { r with aiSuggestion := some s }
    | .error _ => r
  else r

/-- The addAiSuggestions loop over the results, one test at a time. -/
def enrichList (provider : TestResultData → Except String String) :
    List TestResultData → List TestResultData
  | [] => []
  | r :: rs => enrichOne provider r :: enrichList provider rs

/-- addAiSuggestions of the source: with no configured provider (neither
credential present) the results are untouched; with a provider the loop
runs over the list. -/
def addAiSuggestions (provider : Option (TestResultData → Except String String))
    (results : List TestResultData) : List TestResultData :=
  match provider with
  | none => results
  | some f => enrichList f results

/-- onEnd of the source, after the rendering call: enrich the failures,
hand the enriched list to the renderer, then update and persist the
history once. The pair holds the rendered list and the persisted
mapping. -/
def onEnd (provider : Option (TestResultData → Except String String))
    (maxRuns : ℕ) (ts : String) (st : ReporterState) :
    List TestResultData × TestHistory :=
  let enriched := addAiSuggestions provider st.results
  (enriched, updateHistory maxRuns ts st.history enriched)

/-- The durable history file as loadHistory sees it: absent, or present
with some text content. -/
inductive FileState where
  | missing
  | content (s : String)

/-- loadHistory of the source: on a missing file the mapping stays the
empty mapping it was initialised to; on present content the parse result
is used, and a parse failure (the catch branch) yields the empty mapping.
No error escapes: the function is total. parseFn stands for JSON.parse, a
platform builtin that is not repository code. -/
def loadHistory (parseFn : String → Option TestHistory) :
    FileState → TestHistory
  | .missing => emptyHistory
  | .content s =>
    match parseFn s with
    | some h => h
    | none => emptyHistory

/-- A sample failing history entry for concrete instantiations. -/
def entryFail : TestHistoryEntry :=
  { passed := false, duration := 1, timestamp := "t0" }

/-- A sample passing history entry of duration ten. -/
def entryPass10 : TestHistoryEntry :=
  { passed := true, duration := 10, timestamp := "t0" }

/-- A sample completion event. -/
def sampleEvent : TestEvent :=
  { file := "login.spec.ts", title := "user can log in", status := .passed
    duration := 500, retry := 0, errorMsg := none, timestamp := "mon" }

/-- The sample event with a different status, duration, retry count,
error and timestamp, but the same file and title. -/
def sampleEventRetry : TestEvent :=
  { file := "login.spec.ts", title := "user can log in", status := .failed
    duration := 900, retry := 2, errorMsg := some "boom", timestamp := "tue" }

/-- A sample collected result for the test with identity key t. -/
def sampleResult : TestResultData :=
  { testId := "t", title := "t1", file := "f", status := .passed
    duration := 5, retry := 0, error := none, flakinessScore := none
    flakinessIndicator := none, performanceTrend := none
    averageDuration := none, aiSuggestion := none }

/-- A loaded mapping whose sequence at key t already holds two entries,
more than a retention bound of one. -/
def oversizedHistory : TestHistory :=
  fun id => if id = "t" then [entryFail, entryFail] else []

/-- C1: for a non-empty prior history the flakiness score is exactly the
count of entries with passed equal to false divided by the number of
entries, and the indicator bands have inclusive lower bounds: a score
below one tenth is Stable, from one tenth up to below three tenths is
Unstable, from three tenths up is Flaky; in particular a score of exactly
one tenth is Unstable and exactly three tenths is Flaky. -/
theorem flakiness_score_and_indicator_bands (entries : List TestHistoryEntry)
    (hne : entries ≠ []) :
    flakinessScore entries =
      (((entries.countP fun e => decide (e.passed = false)) : ℕ) : ℚ) /
        ((entries.length : ℕ) : ℚ)
    ∧ (flakinessScore entries < 1/10 →
        getFlakinessIndicator (flakinessScore entries) = "🟢 Stable")
    ∧ (1/10 ≤ flakinessScore entries → flakinessScore entries < 3/10 →
        getFlakinessIndicator (flakinessScore entries) = "🟡 Unstable")
    ∧ (3/10 ≤ flakinessScore entries →
        getFlakinessIndicator (flakinessScore entries) = "🔴 Flaky")
    ∧ getFlakinessIndicator (1/10) = "🟡 Unstable"
    ∧ getFlakinessIndicator (3/10) = "🔴 Flaky" := by
  refine ⟨?_, ?_, ?_, ?_, ?_, ?_⟩
  · have hfun : (fun (e : TestHistoryEntry) => decide (e.passed = false)) =
        fun e => !e.passed := by
      funext e
      cases h : e.passed <;> simp [h]
    rw [List.countP_eq_length_filter, hfun]
    rfl
  · intro h
    rw [getFlakinessIndicator, if_pos h]
  · intro h1 h2
    rw [getFlakinessIndicator, if_neg (not_lt.mpr h1), if_pos h2]
  · intro h
    have h1 : ¬ flakinessScore entries < 1/10 :=
      not_lt.mpr (le_trans (by norm_num) h)
    rw [getFlakinessIndicator, if_neg h1, if_neg (not_lt.mpr h)]
  · rw [getFlakinessIndicator, if_neg (by norm_num), if_pos (by norm_num)]
  · rw [getFlakinessIndicator, if_neg (by norm_num), if_neg (by norm_num)]

/-- Witness for C1 at the one-element history holding a single failure. -/
theorem flakiness_score_and_indicator_bands_witness :
    flakinessScore [entryFail] =
      ((([entryFail].countP fun e => decide (e.passed = false)) : ℕ) : ℚ) /
        ((([entryFail] : List TestHistoryEntry).length : ℕ) : ℚ)
    ∧ (flakinessScore [entryFail] < 1/10 →
        getFlakinessIndicator (flakinessScore [entryFail]) = "🟢 Stable")
    ∧ (1/10 ≤ flakinessScore [entryFail] → flakinessScore [entryFail] < 3/10 →
        getFlakinessIndicator (flakinessScore [entryFail]) = "🟡 Unstable")
    ∧ (3/10 ≤ flakinessScore [entryFail] →
        getFlakinessIndicator (flakinessScore [entryFail]) = "🔴 Flaky")
    ∧ getFlakinessIndicator (1/10) = "🟡 Unstable"
    ∧ getFlakinessIndicator (3/10) = "🔴 Flaky" :=
  flakiness_score_and_indicator_bands [entryFail] (List.cons_ne_nil _ _)

/-- The running sum of durations stays non-negative when the accumulator
and every duration are non-negative. -/
theorem foldl_duration_nonneg (entries : List TestHistoryEntry) (a : ℚ)
    (ha : 0 ≤ a) (hd : ∀ e ∈ entries, 0 ≤ e.duration) :
    0 ≤ entries.foldl (fun sum e => sum + e.duration) a := by
  induction entries generalizing a with
  | nil => simpa using ha
  | cons e es ih =>
    simp only [List.foldl_cons]
    exact ih _ (add_nonneg ha (hd e (List.mem_cons_self e es)))
      (fun x hx => hd x (List.mem_cons_of_mem _ hx))

/-- The historical average is non-negative when every duration is. -/
theorem averageDuration_nonneg (entries : List TestHistoryEntry)
    (hd : ∀ e ∈ entries, 0 ≤ e.duration) : 0 ≤ averageDuration entries :=
  div_nonneg (foldl_duration_nonneg entries 0 le_rfl hd)
    (by exact_mod_cast Nat.zero_le entries.length)

/-- With a nonzero average, a quotient between the negated threshold and
the threshold lands in the Stable branch. -/
theorem trend_stable_core (cur avg t : ℚ) (havg : avg ≠ 0)
    (h1 : -t ≤ (cur - avg) / avg) (h2 : (cur - avg) / avg ≤ t) :
    getPerformanceTrend cur avg t = "→ Stable" := by
  have hdiv : jsDiv (cur - avg) avg = .fin ((cur - avg) / avg) := by
    rw [jsDiv, if_pos havg]
  simp only [getPerformanceTrend, hdiv, JsDivResult.gtQ, JsDivResult.ltNegQ,
    decide_eq_true_eq]
  rw [if_neg (not_lt.mpr h2), if_neg (not_lt.mpr h1)]

/-- C2: for a non-empty prior history with a non-negative threshold and
non-negative durations, writing avg for the historical mean and diff for
(current - avg) / avg: a diff above the threshold yields the slower string
with magnitude round(diff * 100), a diff below the negated threshold
yields the faster string with magnitude round(|diff| * 100), a diff
between them yields Stable; and any current duration inside the inclusive
band from avg * (1 - threshold) to avg * (1 + threshold) yields Stable. -/
theorem performance_trend_bands (entries : List TestHistoryEntry) (cur t : ℚ)
    (hne : entries ≠ []) (ht : 0 ≤ t) (hd : ∀ e ∈ entries, 0 ≤ e.duration) :
    (averageDuration entries ≠ 0 →
      t < (cur - averageDuration entries) / averageDuration entries →
      getPerformanceTrend cur (averageDuration entries) t =
        "↑ " ++ toString (jsRound
          ((cur - averageDuration entries) / averageDuration entries * 100)) ++
          "% slower")
    ∧ (averageDuration entries ≠ 0 →
      (cur - averageDuration entries) / averageDuration entries < -t →
      getPerformanceTrend cur (averageDuration entries) t =
        "↓ " ++ toString (jsRound
          (|(cur - averageDuration entries) / averageDuration entries| * 100)) ++
          "% faster")
    ∧ (averageDuration entries ≠ 0 →
      -t ≤ (cur - averageDuration entries) / averageDuration entries →
      (cur - averageDuration entries) / averageDuration entries ≤ t →
      getPerformanceTrend cur (averageDuration entries) t = "→ Stable")
    ∧ (averageDuration entries * (1 - t) ≤ cur →
      cur ≤ averageDuration entries * (1 + t) →
      getPerformanceTrend cur (averageDuration entries) t = "→ Stable") := by
  set a := averageDuration entries with ha_def
  refine ⟨?_, ?_, ?_, ?_⟩
  · intro ha h
    have hdiv : jsDiv (cur - a) a = .fin ((cur - a) / a) := by
      rw [jsDiv, if_pos ha]
    simp only [getPerformanceTrend, hdiv, JsDivResult.gtQ, decide_eq_true_eq]
    rw [if_pos h]
    rfl
  · intro ha h
    have hdiv : jsDiv (cur - a) a = .fin ((cur - a) / a) := by
      rw [jsDiv, if_pos ha]
    have hq : ¬ t < (cur - a) / a :=
      not_lt.mpr (le_of_lt (lt_of_lt_of_le h (le_trans (neg_nonpos.mpr ht) ht)))
    simp only [getPerformanceTrend, hdiv, JsDivResult.gtQ, JsDivResult.ltNegQ,
      decide_eq_true_eq]
    rw [if_neg hq, if_pos h]
    rfl
  · intro ha h1 h2
    exact trend_stable_core cur a t ha h1 h2
  · intro hb1 hb2
    rcases eq_or_ne a 0 with h0 | h0
    · rw [h0] at hb1 hb2
      have hc1 : (0 : ℚ) ≤ cur := by nlinarith
      have hc2 : cur ≤ 0 := by nlinarith
      have hcur : cur = 0 := le_antisymm hc2 hc1
      rw [h0, hcur]
      simp [getPerformanceTrend, jsDiv, JsDivResult.gtQ, JsDivResult.ltNegQ]
    · have hapos : 0 < a :=
        lt_of_le_of_ne (ha_def ▸ averageDuration_nonneg entries hd) (Ne.symm h0)
      refine trend_stable_core cur a t h0 ?_ ?_
      · rw [le_div_iff₀ hapos]
        nlinarith
      · rw [div_le_iff₀ hapos]
        nlinarith

/-- Witness for C2 at a one-entry history of duration ten, current
duration ten and threshold one fifth. -/
theorem performance_trend_bands_witness :
    (averageDuration [entryPass10] ≠ 0 →
      1/5 < (10 - averageDuration [entryPass10]) / averageDuration [entryPass10] →
      getPerformanceTrend 10 (averageDuration [entryPass10]) (1/5) =
        "↑ " ++ toString (jsRound
          ((10 - averageDuration [entryPass10]) / averageDuration [entryPass10] * 100)) ++
          "% slower")
    ∧ (averageDuration [entryPass10] ≠ 0 →
      (10 - averageDuration [entryPass10]) / averageDuration [entryPass10] < -(1/5) →
      getPerformanceTrend 10 (averageDuration [entryPass10]) (1/5) =
        "↓ " ++ toString (jsRound
          (|(10 - averageDuration [entryPass10]) / averageDuration [entryPass10]| * 100)) ++
          "% faster")
    ∧ (averageDuration [entryPass10] ≠ 0 →
      -(1/5) ≤ (10 - averageDuration [entryPass10]) / averageDuration [entryPass10] →
      (10 - averageDuration [entryPass10]) / averageDuration [entryPass10] ≤ 1/5 →
      getPerformanceTrend 10 (averageDuration [entryPass10]) (1/5) = "→ Stable")
    ∧ (averageDuration [entryPass10] * (1 - 1/5) ≤ 10 →
      10 ≤ averageDuration [entryPass10] * (1 + 1/5) →
      getPerformanceTrend 10 (averageDuration [entryPass10]) (1/5) = "→ Stable") :=
  performance_trend_bands [entryPass10] 10 (1/5) (List.cons_ne_nil _ _)
    (by norm_num)
    (by
      intro e he
      rw [List.mem_singleton] at he
      subst he
      norm_num [entryPass10])

/-- Appending under a positive retention bound yields a sequence of length
the minimum of the grown length and the bound. -/
theorem appendEntry_length (m : ℕ) (h : List TestHistoryEntry)
    (e : TestHistoryEntry) (hm : 1 ≤ m) :
    (appendEntry m h e).length = min (h.length + 1) m := by
  simp only [appendEntry]
  by_cases hc : m < (h ++ [e]).length
  · rw [if_pos hc, sliceLast, if_neg (by omega), List.length_drop]
    simp only [List.length_append, List.length_cons, List.length_nil] at hc ⊢
    omega
  · rw [if_neg hc]
    simp only [List.length_append, List.length_cons, List.length_nil] at hc ⊢
    omega

/-- The appended sequence is a suffix of the grown sequence: eviction
drops from the front only and keeps the survivors in order. -/
theorem appendEntry_suffix (m : ℕ) (h : List TestHistoryEntry)
    (e : TestHistoryEntry) : appendEntry m h e <:+ h ++ [e] := by
  simp only [appendEntry]
  by_cases hc : m < (h ++ [e]).length
  · rw [if_pos hc, sliceLast]
    by_cases hz : m = 0
    · rw [if_pos hz]
    · rw [if_neg hz]
      exact List.drop_suffix _ _
  · rw [if_neg hc]

/-- Under a positive bound the newly appended entry is always last. -/
theorem appendEntry_getLast (m : ℕ) (h : List TestHistoryEntry)
    (e : TestHistoryEntry) (hm : 1 ≤ m) :
    (appendEntry m h e).getLast? = some e := by
  simp only [appendEntry]
  by_cases hc : m < (h ++ [e]).length
  · rw [if_pos hc, sliceLast, if_neg (by omega), List.drop_append_eq_append_drop]
    have hk : (h ++ [e]).length - m - h.length = 0 := by
      simp only [List.length_append, List.length_cons, List.length_nil]
      omega
    rw [hk, List.drop_zero, List.getLast?_concat]
  · rw [if_neg hc, List.getLast?_concat]

/-- C3: appending one entry under a positive retention bound keeps a
suffix of the grown sequence (FIFO eviction from the front, survivor
order preserved) of length the minimum of the grown length and the bound,
with the appended entry always last; and with a bound of two, three
successive appends of a, b, c to the empty sequence yield exactly b then
c. -/
theorem append_truncates_fifo (m : ℕ) (h : List TestHistoryEntry)
    (e a b c : TestHistoryEntry) (hm : 1 ≤ m) :
    appendEntry m h e <:+ h ++ [e]
    ∧ (appendEntry m h e).length = min (h.length + 1) m
    ∧ (appendEntry m h e).getLast? = some e
    ∧ appendEntry 2 (appendEntry 2 (appendEntry 2 [] a) b) c = [b, c] :=
  ⟨appendEntry_suffix m h e, appendEntry_length m h e hm,
    appendEntry_getLast m h e hm, rfl⟩

/-- Witness for C3 at bound two, the empty prior sequence and sample
entries. -/
theorem append_truncates_fifo_witness :
    appendEntry 2 [] entryFail <:+ [] ++ [entryFail]
    ∧ (appendEntry 2 [] entryFail).length =
        min (([] : List TestHistoryEntry).length + 1) 2
    ∧ (appendEntry 2 [] entryFail).getLast? = some entryFail
    ∧ appendEntry 2 (appendEntry 2 (appendEntry 2 [] entryFail) entryPass10)
        entryFail = [entryPass10, entryFail] :=
  append_truncates_fifo 2 [] entryFail entryFail entryPass10 entryFail
    (by norm_num)

/-- Appending under a positive retention bound never leaves the sequence
longer than the bound. -/
theorem appendEntry_length_le (m : ℕ) (h : List TestHistoryEntry)
    (e : TestHistoryEntry) (hm : 1 ≤ m) : (appendEntry m h e).length ≤ m := by
  rw [appendEntry_length m h e hm]
  omega

/-- C4 amended: after the run-end update under a positive bound, every
test that appears in the collected results has a sequence of length at
most the bound; a test absent from the results keeps its loaded sequence
unchanged, so a loaded sequence that already exceeds the bound stays
oversized when its test does not run. -/
theorem history_bound_after_update (m : ℕ) (ts : String) (hist : TestHistory)
    (results : List TestResultData) (id : String) (hm : 1 ≤ m) :
    (id ∈ results.map (fun r => r.testId) →
      ((updateHistory m ts hist results) id).length ≤ m)
    ∧ (id ∉ results.map (fun r => r.testId) →
      updateHistory m ts hist results id = hist id) := by
  induction results generalizing hist with
  | nil =>
    refine ⟨?_, fun _ => rfl⟩
    intro hmem
    simp at hmem
  | cons r rs ih =>
    refine ⟨?_, ?_⟩
    · intro hmem
      rw [List.map_cons, List.mem_cons] at hmem
      show ((updateHistory m ts (applyResult m ts hist r) rs) id).length ≤ m
      by_cases hrs : id ∈ rs.map (fun r => r.testId)
      · exact (ih (applyResult m ts hist r)).1 hrs
      · rcases hmem with heq | hmem2
        · rw [(ih _).2 hrs, applyResult, if_pos heq]
          exact appendEntry_length_le m _ _ hm
        · exact absurd hmem2 hrs
    · intro hmem
      rw [List.map_cons, List.mem_cons] at hmem
      push_neg at hmem
      obtain ⟨hne1, hne2⟩ := hmem
      show updateHistory m ts (applyResult m ts hist r) rs id = hist id
      rw [(ih _).2 hne2, applyResult, if_neg hne1]

/-- Counterexample for C4 as stated: with a retention bound of one, a
loaded mapping whose sequence at key t already holds two entries, and a
run whose results do not mention that test, the run-end update leaves the
sequence at length two, above the bound. -/
theorem history_bound_counterexample :
    ((updateHistory 1 "ts" oversizedHistory []) "t").length = 2
    ∧ ¬ ((updateHistory 1 "ts" oversizedHistory []) "t").length ≤ 1 := by
  constructor
  · rfl
  · decide

/-- Witness for the amended C4 at the oversized mapping, one collected
result for the test with key t and bound one. -/
theorem history_bound_after_update_witness :
    ("t" ∈ [sampleResult].map (fun r => r.testId) →
      ((updateHistory 1 "ts" oversizedHistory [sampleResult]) "t").length ≤ 1)
    ∧ ("t" ∉ [sampleResult].map (fun r => r.testId) →
      updateHistory 1 "ts" oversizedHistory [sampleResult] "t" =
        oversizedHistory "t") :=
  history_bound_after_update 1 "ts" oversizedHistory [sampleResult] "t"
    (le_refl 1)

/-- C5: with no prior entries the computed signal carries no score and no
average, the indicator New and the trend Baseline; and the result built
for an event whose test has an empty sequence in the snapshot carries
exactly those signal fields. -/
theorem empty_history_new_baseline (th d : ℚ) (hist : TestHistory)
    (ev : TestEvent) (h : hist (eventTestId ev) = []) :
    computeSignal th [] d =
      { flakinessScore := none, flakinessIndicator := "⚪ New",
        performanceTrend := "→ Baseline", averageDuration := none }
    ∧ (mkTestResult th hist ev).flakinessScore = none
    ∧ (mkTestResult th hist ev).flakinessIndicator = some "⚪ New"
    ∧ (mkTestResult th hist ev).performanceTrend = some "→ Baseline"
    ∧ (mkTestResult th hist ev).averageDuration = none := by
  refine ⟨rfl, ?_, ?_, ?_, ?_⟩ <;> simp [mkTestResult, h, computeSignal]

/-- Witness for C5 at the empty mapping and the sample event. -/
theorem empty_history_new_baseline_witness :
    computeSignal (1/5) [] 500 =
      { flakinessScore := none, flakinessIndicator := "⚪ New",
        performanceTrend := "→ Baseline", averageDuration := none }
    ∧ (mkTestResult (1/5) emptyHistory sampleEvent).flakinessScore = none
    ∧ (mkTestResult (1/5) emptyHistory sampleEvent).flakinessIndicator =
        some "⚪ New"
    ∧ (mkTestResult (1/5) emptyHistory sampleEvent).performanceTrend =
        some "→ Baseline"
    ∧ (mkTestResult (1/5) emptyHistory sampleEvent).averageDuration = none :=
  empty_history_new_baseline (1/5) 500 emptyHistory sampleEvent rfl

/-- C6: loading from a missing file yields the empty mapping, and loading
content the parser rejects yields the empty mapping; the load function is
total, so neither condition propagates an error to the caller. -/
theorem load_missing_or_malformed_empty
    (parseFn : String → Option TestHistory) (s : String)
    (hbad : parseFn s = none) :
    loadHistory parseFn FileState.missing = emptyHistory
    ∧ loadHistory parseFn (FileState.content s) = emptyHistory := by
  refine ⟨rfl, ?_⟩
  simp [loadHistory, hbad]

/-- Witness for C6 with a parser that rejects everything and a malformed
text. -/
theorem load_missing_or_malformed_empty_witness :
    loadHistory (fun _ => none) FileState.missing = emptyHistory
    ∧ loadHistory (fun _ => none) (FileState.content "not json") =
        emptyHistory :=
  load_missing_or_malformed_empty (fun _ => none) "not json" rfl

/-- Counterexample for C7 as stated: two distinct file and title pairs
produce the same derived key, because the double-colon separator can occur
inside a component, so equal keys do not imply the same test. -/
theorem test_id_collision :
    getTestId "a" "b::c" = getTestId "a::b" "c"
    ∧ ("a", "b::c") ≠ (("a::b", "c") : String × String) := by
  constructor
  · rfl
  · decide

/-- C7 amended: the key is derived deterministically from the relative
file path and the title alone, joined with a double colon, so outcomes
with the same file and title get the same key whatever their status,
duration, retry count or timestamp; equal pairs give equal keys, but the
converse fails when a component contains the separator. -/
theorem test_id_deterministic (ev ev2 : TestEvent) (hf : ev.file = ev2.file)
    (ht : ev.title = ev2.title) :
    eventTestId ev = eventTestId ev2
    ∧ eventTestId ev = ev.file ++ "::" ++ ev.title := by
  constructor
  · rw [eventTestId, eventTestId, getTestId, getTestId, hf, ht]
  · rfl

/-- Witness for the amended C7: the sample event and its retry variant
share the file and the title but differ in status, duration, retry count,
error and timestamp, and their keys agree. -/
theorem test_id_deterministic_witness :
    eventTestId sampleEvent = eventTestId sampleEventRetry
    ∧ eventTestId sampleEvent = sampleEvent.file ++ "::" ++ sampleEvent.title :=
  test_id_deterministic sampleEvent sampleEventRetry rfl rfl

/-- Processing any sequence of completion events never changes the
history snapshot loaded at run start. -/
theorem processRun_history (th : ℚ) (st : ReporterState)
    (evs : List TestEvent) : (processRun th st evs).history = st.history := by
  induction evs generalizing st with
  | nil => rfl
  | cons e es ih => exact ih (onTestEndStep th st e)

/-- The results collected over a run are exactly the per-event results
computed against the run-start snapshot, in event order. -/
theorem processRun_results (th : ℚ) (st : ReporterState)
    (evs : List TestEvent) :
    (processRun th st evs).results =
      st.results ++ evs.map (mkTestResult th st.history) := by
  induction evs generalizing st with
  | nil => simp [processRun]
  | cons e es ih =>
    show (processRun th (onTestEndStep th st e) es).results = _
    rw [ih (onTestEndStep th st e)]
    simp [onTestEndStep]

/-- C8: one completion event leaves the loaded mapping unchanged; any
sequence of events leaves it unchanged; every collected result is the one
computed from the run-start snapshot, in event order; and the mapping the
run persists is the one obtained by appending the outcomes of this run to that
snapshot once, at run end. -/
theorem signals_use_run_start_snapshot (th : ℚ) (st : ReporterState)
    (ev : TestEvent) (evs : List TestEvent)
    (provider : Option (TestResultData → Except String String))
    (m : ℕ) (ts id : String) :
    (onTestEndStep th st ev).history = st.history
    ∧ (processRun th st evs).history = st.history
    ∧ (processRun th st evs).results =
        st.results ++ evs.map (mkTestResult th st.history)
    ∧ (onEnd provider m ts (processRun th st evs)).2 id =
        updateHistory m ts st.history
          (addAiSuggestions provider
            (st.results ++ evs.map (mkTestResult th st.history))) id := by
  refine ⟨rfl, processRun_history th st evs, processRun_results th st evs, ?_⟩
  simp only [onEnd]
  rw [processRun_history, processRun_results]

/-- The enrichment loop is elementwise: each result is transformed by the
per-test enrichment step alone, independently of the provider behaviour
on the other tests. -/
theorem enrichList_eq_map (f : TestResultData → Except String String)
    (rs : List TestResultData) : enrichList f rs = rs.map (enrichOne f) := by
  induction rs with
  | nil => rfl
  | cons r rs ih => simp [enrichList, ih]

/-- Per-test enrichment never changes the identity key, the status or the
duration of a result. -/
theorem enrichOne_preserves (f : TestResultData → Except String String)
    (r : TestResultData) :
    (enrichOne f r).testId = r.testId
    ∧ (enrichOne f r).status = r.status
    ∧ (enrichOne f r).duration = r.duration := by
  rw [enrichOne]
  by_cases hc : r.status = TestStatus.failed ∨ r.status = TestStatus.timedOut
  · rw [if_pos hc]
    cases f r with
    | ok s => exact ⟨rfl, rfl, rfl⟩
    | error e => exact ⟨rfl, rfl, rfl⟩
  · rw [if_neg hc]
    exact ⟨rfl, rfl, rfl⟩

/-- The run-end history update reads each result only through its key,
status and duration, so pointwise equal mappings stay pointwise equal. -/
theorem updateHistory_congr (m : ℕ) (ts : String)
    (rs : List TestResultData) (h h2 : TestHistory)
    (hh : ∀ j, h j = h2 j) (id : String) :
    updateHistory m ts h rs id = updateHistory m ts h2 rs id := by
  induction rs generalizing h h2 with
  | nil => exact hh id
  | cons r rs ih =>
    show updateHistory m ts (applyResult m ts h r) rs id =
      updateHistory m ts (applyResult m ts h2 r) rs id
    apply ih
    intro j
    simp only [applyResult, hh r.testId]
    by_cases hj : j = r.testId
    · rw [if_pos hj, if_pos hj]
    · rw [if_neg hj, if_neg hj, hh j]

/-- Enriching the results does not change the history the run persists:
the update only reads fields enrichment preserves. -/
theorem enrichment_preserves_update (f : TestResultData → Except String String)
    (rs : List TestResultData) (m : ℕ) (ts : String) (hist : TestHistory)
    (id : String) :
    updateHistory m ts hist (rs.map (enrichOne f)) id =
      updateHistory m ts hist rs id := by
  induction rs generalizing hist with
  | nil => rfl
  | cons r rs ih =>
    show updateHistory m ts (applyResult m ts hist (enrichOne f r))
        (rs.map (enrichOne f)) id =
      updateHistory m ts (applyResult m ts hist r) rs id
    rw [ih (applyResult m ts hist (enrichOne f r))]
    apply updateHistory_congr
    intro j
    obtain ⟨h1, h2, h3⟩ := enrichOne_preserves f r
    have hmk : mkHistoryEntry ts (enrichOne f r) = mkHistoryEntry ts r := by
      simp only [mkHistoryEntry, h2, h3]
    simp only [applyResult, h1, hmk]

/-- C9: with any configured provider behaviour, the enriched list is the
elementwise enrichment of the results, one test at a time, so a provider
failure on one test leaves the enrichment of every other test and the list
itself intact; the list keeps its length and order for rendering, and the
history the run persists is the same as without enrichment, so
finalization is unaffected. -/
theorem enrichment_failures_isolated
    (f : TestResultData → Except String String)
    (results : List TestResultData) (m : ℕ) (ts id : String)
    (hist : TestHistory) :
    addAiSuggestions (some f) results = results.map (enrichOne f)
    ∧ (addAiSuggestions (some f) results).length = results.length
    ∧ updateHistory m ts hist (addAiSuggestions (some f) results) id =
        updateHistory m ts hist results id := by
  have h1 : addAiSuggestions (some f) results = results.map (enrichOne f) :=
    enrichList_eq_map f results
  refine ⟨h1, ?_, ?_⟩
  · rw [h1, List.length_map]
  · rw [h1]
    exact enrichment_preserves_update f results m ts hist id

/-- C10: the trend computation has no guard for a zero historical
average: for every input it returns one of the three trend string shapes
without raising, the branch taken is determined solely by how the
unguarded quotient compares against the threshold, and in the
zero-average edge case the quotient is the JavaScript division by zero:
positive Infinity compares above any threshold and yields slower,
negative Infinity yields faster, and a zero current duration gives NaN,
which compares false on both sides and falls to Stable. -/
theorem perf_trend_total_unguarded (t cur avg : ℚ) :
    (getPerformanceTrend cur avg t =
        "↑ " ++ (jsDiv (cur - avg) avg).roundTimes100 ++ "% slower"
      ∨ getPerformanceTrend cur avg t =
        "↓ " ++ (jsDiv (cur - avg) avg).absRoundTimes100 ++ "% faster"
      ∨ getPerformanceTrend cur avg t = "→ Stable")
    ∧ ((jsDiv (cur - avg) avg).gtQ t = true →
        getPerformanceTrend cur avg t =
          "↑ " ++ (jsDiv (cur - avg) avg).roundTimes100 ++ "% slower")
    ∧ ((jsDiv (cur - avg) avg).gtQ t = false →
        (jsDiv (cur - avg) avg).ltNegQ t = true →
        getPerformanceTrend cur avg t =
          "↓ " ++ (jsDiv (cur - avg) avg).absRoundTimes100 ++ "% faster")
    ∧ ((jsDiv (cur - avg) avg).gtQ t = false →
        (jsDiv (cur - avg) avg).ltNegQ t = false →
        getPerformanceTrend cur avg t = "→ Stable")
    ∧ (avg = 0 → 0 < cur →
        getPerformanceTrend cur avg t = "↑ Infinity% slower")
    ∧ (avg = 0 → cur < 0 →
        getPerformanceTrend cur avg t = "↓ Infinity% faster")
    ∧ (avg = 0 → cur = 0 →
        getPerformanceTrend cur avg t = "→ Stable") := by
  have hB2 : (jsDiv (cur - avg) avg).gtQ t = true →
      getPerformanceTrend cur avg t =
        "↑ " ++ (jsDiv (cur - avg) avg).roundTimes100 ++ "% slower" := by
    intro h
    simp only [getPerformanceTrend]
    rw [if_pos h]
  have hB3 : (jsDiv (cur - avg) avg).gtQ t = false →
      (jsDiv (cur - avg) avg).ltNegQ t = true →
      getPerformanceTrend cur avg t =
        "↓ " ++ (jsDiv (cur - avg) avg).absRoundTimes100 ++ "% faster" := by
    intro h1 h2
    simp only [getPerformanceTrend]
    rw [if_neg (by simp [h1]), if_pos h2]
  have hB4 : (jsDiv (cur - avg) avg).gtQ t = false →
      (jsDiv (cur - avg) avg).ltNegQ t = false →
      getPerformanceTrend cur avg t = "→ Stable" := by
    intro h1 h2
    simp only [getPerformanceTrend]
    rw [if_neg (by simp [h1]), if_neg (by simp [h2])]
  refine ⟨?_, hB2, hB3, hB4, ?_, ?_, ?_⟩
  · rcases Bool.eq_false_or_eq_true ((jsDiv (cur - avg) avg).gtQ t) with hg | hg
    · exact Or.inl (hB2 hg)
    · rcases Bool.eq_false_or_eq_true ((jsDiv (cur - avg) avg).ltNegQ t) with hl | hl
      · exact Or.inr (Or.inl (hB3 hg hl))
      · exact Or.inr (Or.inr (hB4 hg hl))
  · intro h0 hc
    subst h0
    have hjs : jsDiv (cur - 0) 0 = .posInf := by
      rw [jsDiv, if_neg (by norm_num), if_pos (by simpa using hc)]
    rw [hB2 (by rw [hjs]; rfl), hjs]
    rfl
  · intro h0 hc
    subst h0
    have hjs : jsDiv (cur - 0) 0 = .negInf := by
      rw [jsDiv, if_neg (by norm_num), if_neg (by simp; exact le_of_lt hc),
        if_pos (by simpa using hc)]
    rw [hB3 (by rw [hjs]; rfl) (by rw [hjs]; rfl), hjs]
    rfl
  · intro h0 hc
    subst h0
    subst hc
    have hjs : jsDiv ((0 : ℚ) - 0) 0 = .nan := by
      rw [jsDiv, if_neg (by norm_num), if_neg (by norm_num), if_neg (by norm_num)]
    exact hB4 (by rw [hjs]; rfl) (by rw [hjs]; rfl)

/-- Witness for C10 at a zero average: a positive current duration lands
in the slower branch through the Infinity quotient, a negative one in the
faster branch, and the zero-zero case falls to Stable through NaN. -/
theorem perf_trend_total_unguarded_witness :
    getPerformanceTrend 3 0 (1/5) = "↑ Infinity% slower"
    ∧ getPerformanceTrend (-3) 0 (1/5) = "↓ Infinity% faster"
    ∧ getPerformanceTrend 0 0 (1/5) = "→ Stable" :=
  ⟨(perf_trend_total_unguarded (1/5) 3 0).2.2.2.2.1 rfl (by norm_num),
   (perf_trend_total_unguarded (1/5) (-3) 0).2.2.2.2.2.1 rfl (by norm_num),
   (perf_trend_total_unguarded (1/5) 0 0).2.2.2.2.2.2 rfl rfl⟩
